import Mathlib

/-!
Verification of the cobbledex-leaderboard data pipeline (`src/main.py`).

The development shallowly embeds the parts of the program that the claims
are about:

* the aggregate table built by `MinecraftDataLoader` (a pandas `DataFrame`
  restricted to the shapes the loader actually produces: a row index of
  composite keys and one integer column per player), together with the
  `df.join(temp_df, how="outer")` merge fold and the final `fillna(0)` pass;
* the remote loading loops `_load_stats_remote` / `_load_advancements_remote`,
  whose `try`/`except` wraps the whole loop over the directory listing;
* the decoders `_process_stats_file`, `_process_advancements_file` and
  `_process_playerdata_file`;
* the identity lookup `_get_username`;
* the transport listings `SFTPManager.list_directory` and
  `FTPManager.list_directory`;
* the ranking projection `LeaderboardGenerator.get_vanilla_leaderboard`.

Machine integers are modelled as `Int` (no overflow is relevant here: the
Python side uses arbitrary-precision `int`), and every fallible code path
(a raised exception) is modelled with `Option`/`Except`.
-/

namespace Cobbledex

/-- Association-list lookup used to read one cell of a player column:
the value stored for key `k`, if any. -/
def alookup {κ : Type} [DecidableEq κ] (l : List (κ × Int)) (k : κ) : Option Int :=
  (l.find? (fun e => decide (e.1 = k))).map (fun e => e.2)

/-- The aggregate table built by the loader: a pandas `DataFrame` whose row
index is a list of composite keys and whose columns are one integer-valued
association list per player, in original column order.  A cell absent from a
column's list is a `NaN` that the final `fillna(0)` pass turns into `0`. -/
structure DF (κ : Type) where
  rows : List κ
  cols : List (String × List (κ × Int))
deriving DecidableEq

/-- The initial accumulator `pd.DataFrame()`. -/
def DF.empty {κ : Type} : DF κ := ⟨[], []⟩

/-- One decoded per-player record as a single-column `DataFrame`
(`_process_stats_file` / `_process_advancements_file` output). -/
def toDF {κ : Type} (p : String × List (κ × Int)) : DF κ :=
  ⟨p.2.map Prod.fst, [p]⟩

/-- `df.join(temp_df, how="outer")`: the row index becomes the union of both
indexes and the incoming column is appended.  (pandas sorts the unioned index;
only membership of the row-key set is observed by the claims.) -/
def DF.join {κ : Type} [DecidableEq κ] (df tmp : DF κ) : DF κ :=
  ⟨df.rows ++ tmp.rows.filter (fun k => decide (¬ k ∈ df.rows)), df.cols ++ tmp.cols⟩

/-- One loop iteration of the loaders:
`df = temp_df if df.empty else df.join(temp_df, how="outer")`.
`df.empty` is true exactly when the frame has no rows, so a growing table
that is still row-less is *replaced* (its columns are dropped). -/
def mergeStep {κ : Type} [DecidableEq κ] (df : DF κ) (p : String × List (κ × Int)) : DF κ :=
  if df.rows.isEmpty then toDF p else df.join (toDF p)

/-- The whole local merge loop (`_load_stats_local` / `_load_advancements_local`):
fold every decoded record into the accumulator, starting from `pd.DataFrame()`. -/
def mergeAll {κ : Type} [DecidableEq κ] (ps : List (String × List (κ × Int))) : DF κ :=
  ps.foldl mergeStep DF.empty

/-- Reading one cell of the final table after the `fillna(0)` pass in
`load_all_data`: `none` when the player has no column at all or the row key is
absent from the index; otherwise the stored value, with a missing cell
(outer-join `NaN`) filled with `0`. -/
def DF.cell {κ : Type} [DecidableEq κ] (df : DF κ) (k : κ) (n : String) : Option Int :=
  match df.cols.find? (fun c => c.1 == n) with
  | none => none
  | some c => if k ∈ df.rows then some ((alookup c.2 k).getD 0) else none

/-- Outcome of downloading-and-decoding one file of a remote listing:
either a decoded per-player record, or the message of the exception the
transport or the decoder raised for that file. -/
def isOkFile {κ : Type} : Except String (String × List (κ × Int)) → Bool
  | Except.ok _ => true
  | Except.error _ => false

/-- Loop body of `_load_stats_remote` / `_load_advancements_remote`.  The
`try` block wraps the *whole* `for` loop, so the first raised exception is
caught outside the loop and the partial accumulator is returned at once. -/
def loadRemoteGo {κ : Type} [DecidableEq κ] :
    DF κ → List (Except String (String × List (κ × Int))) → DF κ
  | df, [] => df
  | df, Except.error _ :: _ => df
  | df, Except.ok p :: rest => loadRemoteGo (mergeStep df p) rest

/-- `_load_stats_remote` / `_load_advancements_remote`: fold the listing's
download-and-decode outcomes into the accumulator, aborting the loop (but not
the run) at the first failure. -/
def loadRemote {κ : Type} [DecidableEq κ]
    (files : List (Except String (String × List (κ × Int)))) : DF κ :=
  loadRemoteGo DF.empty files

/-! ### String splitting

Python's `str.split` and pandas' `.str.split` are embedded over the
character list of a `String` (Lean's own `String.splitOn` does not reduce in
the kernel; the semantics below matches Python's `split`). -/

/-- `s.split(sep)` with no maxsplit: split at every occurrence of `sep`.
`splitChars sep s.data`; the empty string yields `[""]`, like Python. -/
def splitChars (sep : Char) : List Char → List (List Char)
  | [] => [[]]
  | c :: cs =>
    if c = sep then [] :: splitChars sep cs
    else
      match splitChars sep cs with
      | [] => [[c]]
      | g :: gs => (c :: g) :: gs

/-- pandas `.str.split(sep, expand=True)` applied to one key: the list of
segments of `s` between occurrences of `sep`. -/
def pySplitAll (sep : Char) (s : String) : List String :=
  (splitChars sep s.data).map (fun cs => String.mk cs)

/-- `s.split(sep, 1)`: the part before and the part after the *first*
occurrence of `sep`, or `none` when `sep` does not occur. -/
def splitFirst (sep : Char) : List Char → Option (List Char × List Char)
  | [] => none
  | c :: cs =>
    if c = sep then some ([], cs)
    else (splitFirst sep cs).map (fun p => (c :: p.1, p.2))

/-- Python `s.startswith(p)` (exact, case-sensitive). -/
def pyStartsWith (s p : String) : Bool := p.data.isPrefixOf s.data

/-! ### Stats decoder (`_process_stats_file`, src/main.py:391-406)

A stats JSON is represented by its `pd.json_normalize` output: the ordered
list of flattened dotted-key/value leaves.  `transpose().iloc[1:]` drops the
first leaf unconditionally; `.str.split('.', expand=True)` splits each key
into its dot segments; when some key has more than 3 segments
(`len(levshape) > 3`), level 3 is dropped and the frame is grouped by the
first three levels and summed (pandas `groupby` silently drops groups whose
key contains a `NaN` level, i.e. rows with fewer than 3 segments).

Two inputs make `_process_stats_file` raise rather than return a frame, and
`processStats` fails (`none`) on exactly those:
* a post-drop index with no rows — `Index.str.split(expand=True)` calls
  `MultiIndex.from_tuples([])`, a `TypeError`;
* a post-drop index whose keys are all dotless — every split is a 1-tuple,
  pandas collapses the result to a flat `Index`, and the later
  `temp_df.index.levshape` raises `AttributeError`. -/

/-- `transpose().iloc[1:]` followed by the dot split: the post-drop leaves
with their keys split into segment lists.  (This is the intermediate segment
table; the two error cases of the split/`levshape` step are raised by
`processStats`, which consumes it.) -/
def statSegs (entries : List (String × Int)) : List (List String × Int) :=
  (entries.drop 1).map (fun e => (pySplitAll '.' e.1, e.2))

/-- `len(temp_df.index.levshape)`: the maximal number of segments of any key
(shorter keys are padded with `NaN` levels up to this width). -/
def maxSegs (l : List (List String × Int)) : Nat :=
  l.foldl (fun m e => max m e.1.length) 0

/-- The group keys of `groupby(level=[0,1,2])`: the 3-segment prefixes of the
keys having at least 3 segments (rows with a `NaN` among the first three
levels are dropped by `groupby`), first occurrence order. -/
def groupKeys (l : List (List String × Int)) : List (List String) :=
  ((l.filter (fun e => decide (3 ≤ e.1.length))).map (fun e => e.1.take 3)).dedup

/-- `droplevel(3)` followed by `groupby(level=[0,1,2]).sum()`: one row per
3-segment prefix, holding the sum of every leaf sharing that prefix. -/
def groupSum (l : List (List String × Int)) : List (List String × Int) :=
  (groupKeys l).map (fun k =>
    (k, ((l.filter (fun e => decide (3 ≤ e.1.length ∧ e.1.take 3 = k))).map (fun e => e.2)).sum))

/-- `_process_stats_file`: decoded record of one player's stats JSON, keyed by
segment lists (the `MultiIndex` of the returned frame); `none` when the
decoder raises — empty post-drop index (`TypeError` in
`MultiIndex.from_tuples([])`) or all-dotless keys (the split collapses to a
flat `Index` and `levshape` raises `AttributeError`). -/
def processStats (entries : List (String × Int)) : Option (List (List String × Int)) :=
  let l := statSegs entries
  if l.isEmpty then none
  else if maxSegs l = 1 then none
  else if 3 < maxSegs l then some (groupSum l) else some l

/-! ### Advancements decoder (`_process_advancements_file`, src/main.py:422-435) -/

/-- `.str.split(":", n=1).str[1]`: the local part of a namespaced id — the
substring after the first colon, or `NaN` (`none`) when there is no colon. -/
def localPart (s : String) : Option String :=
  (splitFirst ':' s.data).map (fun p => String.mk p.2)

/-- Same flatten/drop/split front end as the stats decoder, with the
advancement cell values left generic (they are timestamps/booleans).  As for
stats, the empty-index `TypeError` of the split is raised by the consuming
decoder `processAdvancements`, not here. -/
def advSegs {β : Type} (entries : List (String × β)) : List (List String × β) :=
  (entries.drop 1).map (fun e => (pySplitAll '.' e.1, e.2))

/-- The recipe mask on level 0 of the split index:
`…get_level_values(0).str.split(":", n=1).str[1].str.startswith("recipes")`.
`none` is the `NaN` produced by a level-0 value without a colon. -/
def advMask (k : List String) : Option Bool :=
  (localPart (k.headD "")).map (fun loc => pyStartsWith loc "recipes")

/-- `_process_advancements_file`: keep the rows whose mask is `False`.
The decoder fails (`none`) when the post-drop index is empty — the split
raises `TypeError` in `MultiIndex.from_tuples([])` — and when any row's mask
is `NaN`, because `~` applied to the mask raises a `TypeError` (unary `~` on
a float). -/
def processAdvancements {β : Type} (entries : List (String × β)) :
    Option (List (List String × β)) :=
  let l := advSegs entries
  if l.isEmpty then none
  else if l.all (fun e => (advMask e.1).isSome) then
    some (l.filter (fun e => !((advMask e.1).getD true)))
  else none

/-! ### Identity lookup (`_load_usercache` / `_get_username`, src/main.py:334-356)

`names_df` is the usercache JSON as a row list in file order;
`names_df.loc[names_df['uuid'] == uuid]['name']` selects every matching row
and `.iloc[0]` takes the *first* one; an empty selection returns the uuid. -/

/-- `_get_username`: resolve a uuid against the usercache rows. -/
def getUsername (cache : List (String × String)) (uuid : String) : String :=
  match cache.find? (fun e => e.1 == uuid) with
  | none => uuid
  | some e => e.2

/-! ### Playerdata decoder (`_process_playerdata_file`, src/main.py:408-420)

The NBT save file is a tagged node tree; indexing a missing key raises,
modelled by `Option`. -/

/-- A minimal read-only NBT node: compound, list, or numeric leaf. -/
inductive NBTTag : Type where
  | compound (entries : List (String × NBTTag))
  | tagList (items : List NBTTag)
  | tagInt (v : Int)

/-- `node[key]`: child lookup in a compound tag; raises (`none`) on a missing
key or a non-compound node. -/
def nbtChild : NBTTag → String → Option NBTTag
  | NBTTag.compound es, k => (es.find? (fun e => e.1 == k)).map (fun e => e.2)
  | _, _ => none

/-- Chained indexing `node[k1][k2]…`. -/
def nbtGetPath : NBTTag → List String → Option NBTTag
  | t, [] => some t
  | t, k :: ks => (nbtChild t k).bind (fun c => nbtGetPath c ks)

/-- `nbtfile['cardinal_components']['numismatic-overhaul:currency']['Value'].value`. -/
def currencyValue (root : NBTTag) : Option Int :=
  match nbtGetPath root ["cardinal_components", "numismatic-overhaul:currency", "Value"] with
  | some (NBTTag.tagInt v) => some v
  | _ => none

/-- `len(nbtfile['BalmData']['WaystonesData']['Waystones'])`. -/
def waystoneCount (root : NBTTag) : Option Nat :=
  match nbtGetPath root ["BalmData", "WaystonesData", "Waystones"] with
  | some (NBTTag.tagList items) => some items.length
  | _ => none

/-- The decoded economy record of one player. -/
structure EconomyRec where
  money : Int
  waystones : Nat
deriving DecidableEq

/-- `_process_playerdata_file`: `money = math.floor(value / 10000)` (Python's
float true division followed by `math.floor` is modelled as exact floor
division `Int.fdiv`) and the waystone count; any missing path raises. -/
def processPlayerdata (root : NBTTag) : Option EconomyRec :=
  match currencyValue root, waystoneCount root with
  | some v, some w => some ⟨Int.fdiv v 10000, w⟩
  | _, _ => none

/-! ### Transport listings (src/main.py:158-159, 251-268)

A remote directory is `none` when inaccessible (missing path, permission
error, stat failure, or not a directory), otherwise its entry list. -/

/-- File type of a directory entry, as reported by `stat`. -/
inductive FKind where
  | reg
  | dir
  | link
  | other
deriving DecidableEq

/-- One entry of a directory listing. -/
structure DirEntry where
  name : String
  kind : FKind
deriving DecidableEq

/-- `SFTPManager.list_directory`: every failure (stat error, non-directory,
listing error) is caught and yields `[]`; otherwise only the regular files'
names are returned. -/
def sftpListDirectory (d : Option (List DirEntry)) : List String :=
  match d with
  | none => []
  | some es => (es.filter (fun e => e.kind == FKind.reg)).map (fun e => e.name)

/-- `FTPManager.list_directory`: `self.ftp.nlst(path)` — the raw name listing
of the server, with no file-type filter; an inaccessible directory raises
`ftplib.error_perm`, which is not caught. -/
def ftpListDirectory (d : Option (List DirEntry)) : Except String (List String) :=
  match d with
  | none => Except.error "550 No such directory"
  | some es => Except.ok (es.map (fun e => e.name))

/-- `os.listdir` as used by the local-mode loaders: raises on an inaccessible
directory and lists every entry regardless of type. -/
def osListdir (d : Option (List DirEntry)) : Except String (List String) :=
  match d with
  | none => Except.error "FileNotFoundError"
  | some es => Except.ok (es.map (fun e => e.name))

/-! ### Ranking engine (`LeaderboardGenerator.get_vanilla_leaderboard`,
src/main.py:695-729)

The row selection `df.loc['stats'].loc[category].loc[subcategory]` (or the
per-column sum for `"total"`) yields the players' scores in original column
order; `sort_values()` sorts ascending and `.iloc[::-1]` reverses.

`sort_values()`'s default `kind='quicksort'` (numpy introsort) guarantees
only an ascending permutation, not a tie order; the executable model below
uses insertion sort, which is what numpy itself runs below its ≈16-element
cutoff (so the model's output *is* the program's on the small inputs the
counterexample and witnesses evaluate), but the claim theorems assert only
the sortedness and permutation properties that hold for every
`kind`. -/

/-- The composite row key of the stats table: (level 0 = `'stats'`,
category, metric). -/
abbrev Key3 := String × String × String

/-- Row selection of `get_vanilla_leaderboard`: for `"total"`, the per-player
sum over every row under `('stats', category)`; otherwise the single row
`('stats', category, subcategory)`.  A missing label raises a `KeyError`
(`none`). -/
def selectScores (df : DF Key3) (cat sub : String) : Option (List (String × Int)) :=
  if sub = "total" then
    let ks := df.rows.filter (fun k => decide (k.1 = "stats" ∧ k.2.1 = cat))
    if ks.isEmpty then none
    else some (df.cols.map (fun c => (c.1, (ks.map (fun k => (alookup c.2 k).getD 0)).sum)))
  else
    if ("stats", cat, sub) ∈ df.rows then
      some (df.cols.map (fun c => (c.1, (alookup c.2 ("stats", cat, sub)).getD 0)))
    else none

/-- Insertion into an ascending run: the new element goes after every
element whose score is `≤` its own (numpy's small-array insertion sort). -/
def insertAsc (x : String × Int) : List (String × Int) → List (String × Int)
  | [] => [x]
  | y :: ys => if x.2 < y.2 then x :: y :: ys else y :: insertAsc x ys

/-- `Series.sort_values()`: ascending sort by score, realised as insertion
sort.  numpy's default sort IS this insertion sort below its ≈16-element
cutoff; beyond it only "ascending permutation of the input" is guaranteed,
and only that much is used by the claim theorems. -/
def sortValuesAsc (l : List (String × Int)) : List (String × Int) :=
  l.foldl (fun acc x => insertAsc x acc) []

/-- `sort_values()` followed by `.iloc[::-1]`. -/
def rankRow (r : List (String × Int)) : List (String × Int) :=
  (sortValuesAsc r).reverse

/-- A leaderboard cell: either the raw numeric score, or the string the
play-time formatting produced. -/
inductive Score where
  | raw (n : Int)
  | fmt (s : String)
deriving DecidableEq

/-- Whether a leaderboard cell still holds a raw numeric score. -/
def Score.isRaw : Score → Bool
  | Score.raw _ => true
  | Score.fmt _ => false

/-- The play-time formatter applied in `get_vanilla_leaderboard`:
`f"{int(x) // (20*60*60)}h {(int(x) // (20*60)) % 60}min"` (Python `//` and
`%` are floor division and mathematical modulus). -/
def fmtPlaytime (x : Int) : String :=
  toString (x.fdiv 72000) ++ "h " ++ toString ((x.fdiv 1200).emod 60) ++ "min"

/-- `get_vanilla_leaderboard`: select the scores, sort, and — only for
`minecraft:custom` / `minecraft:play_time` — replace every score by its
formatted hours/minutes string. -/
def vanillaLeaderboard (df : DF Key3) (cat sub : String) :
    Option (List (String × Score)) :=
  (selectScores df cat sub).map (fun r =>
    if cat = "minecraft:custom" ∧ sub = "minecraft:play_time" then
      (rankRow r).map (fun e => (e.1, Score.fmt (fmtPlaytime e.2)))
    else
      (rankRow r).map (fun e => (e.1, Score.raw e.2)))

/-- A two-player stats table with tied scores; the column order (the order in
which the players were merged) is Alice before Bob. -/
def tieTable : DF Key3 :=
  ⟨[("stats", "c", "s")],
   [("Alice", [(("stats", "c", "s"), 5)]), ("Bob", [(("stats", "c", "s"), 5)])]⟩

/-- A one-player stats table holding a play-time row of 72000 ticks. -/
def playtimeTable : DF Key3 :=
  ⟨[("stats", "minecraft:custom", "minecraft:play_time")],
   [("A", [(("stats", "minecraft:custom", "minecraft:play_time"), 72000)])]⟩

/-- A playerdata save tree whose currency leaf holds 123456 and whose
waystone list is empty. -/
def sampleTree : NBTTag :=
  NBTTag.compound
    [("cardinal_components", NBTTag.compound
        [("numismatic-overhaul:currency", NBTTag.compound
            [("Value", NBTTag.tagInt 123456)])]),
     ("BalmData", NBTTag.compound
        [("WaystonesData", NBTTag.compound
            [("Waystones", NBTTag.tagList [])])])]

end Cobbledex


/-! ## Theorems -/

namespace Cobbledex

/-! ### C9 — economy decode -/

/-- C9: for every playerdata save tree whose currency leaf holds the integer
`v`, the decoded economy record's money field is `⌊v / 10000⌋`. -/
theorem c9_money_floor_div (root : NBTTag) (v : Int) (r : EconomyRec)
    (hv : currencyValue root = some v) (hr : processPlayerdata root = some r) :
    r.money = Int.fdiv v 10000 := by
  unfold processPlayerdata at hr
  rw [hv] at hr
  cases hw : waystoneCount root with
  | none => rw [hw] at hr; cases hr
  | some w =>
    rw [hw] at hr
    cases hr
    rfl

/-- C9 witness: the spec scenario — raw currency 123456 decodes to money 12. -/
theorem c9_money_floor_div_witness :
    currencyValue sampleTree = some 123456 ∧
    processPlayerdata sampleTree = some ⟨12, 0⟩ ∧
    (⟨12, 0⟩ : EconomyRec).money = Int.fdiv 123456 10000 :=
  ⟨rfl, rfl, c9_money_floor_div sampleTree 123456 ⟨12, 0⟩ rfl rfl⟩

/-! ### C7 — identity resolution -/

/-- C7 counterexample: with two cache entries for the same id, resolution
returns the FIRST entry's name (`"Alice"`), not the last one's (`"Bob"`). -/
theorem c7_counterexample :
    getUsername [("u1", "Alice"), ("u1", "Bob")] "u1" = "Alice" ∧
    ("Alice" : String) ≠ "Bob" :=
  ⟨by decide, by decide⟩

/-- C7 (amended): duplicate ids resolve first-write-wins — the name of the
first matching cache entry is returned — and an id absent from the cache
resolves to itself (and the lookup is total, so it never raises). -/
theorem c7_first_write_wins (cache : List (String × String)) (u : String) :
    ((∀ e ∈ cache, e.1 ≠ u) → getUsername cache u = u) ∧
    (∀ pre n post, cache = pre ++ (u, n) :: post → (∀ p ∈ pre, p.1 ≠ u) →
      getUsername cache u = n) := by
  constructor
  · intro h
    unfold getUsername
    have hf : cache.find? (fun e => e.1 == u) = none := by
      rw [List.find?_eq_none]
      intro x hx
      simp [h x hx]
    rw [hf]
  · intro pre n post hc hpre
    subst hc
    unfold getUsername
    rw [List.find?_append]
    have h1 : pre.find? (fun e => e.1 == u) = none := by
      rw [List.find?_eq_none]
      intro x hx
      simp [hpre x hx]
    rw [h1]
    simp [List.find?]

/-- C7 witness: a concrete cache with a duplicated id resolves to the first
matching name. -/
theorem c7_first_write_wins_witness :
    ([("u0", "Zoe"), ("u1", "Alice"), ("u1", "Bob")] : List (String × String))
        = [("u0", "Zoe")] ++ ("u1", "Alice") :: [("u1", "Bob")] ∧
    (∀ p ∈ ([("u0", "Zoe")] : List (String × String)), p.1 ≠ "u1") ∧
    getUsername [("u0", "Zoe"), ("u1", "Alice"), ("u1", "Bob")] "u1" = "Alice" :=
  ⟨rfl, by decide,
   (c7_first_write_wins _ "u1").2 [("u0", "Zoe")] "Alice" [("u1", "Bob")] rfl (by decide)⟩

/-! ### C10 — the unconditional `iloc[1:]` drop -/

/-- C10: both decoders discard the first flattened entry unconditionally —
the decoded output (success or failure alike) does not depend on the first
entry's key or value at all — and a record whose first flattened leaf is a
genuine metric silently loses it: the two-leaf record below decodes
successfully, with the `minecraft:jump` leaf gone and only the second leaf
present. -/
theorem c10_first_entry_dropped :
    (∀ (e₁ e₂ : String × Int) (rest : List (String × Int)),
        processStats (e₁ :: rest) = processStats (e₂ :: rest)) ∧
    (∀ (e₁ e₂ : String × Int) (rest : List (String × Int)),
        processAdvancements (e₁ :: rest) = processAdvancements (e₂ :: rest)) ∧
    processStats [("stats.minecraft:custom.minecraft:jump", 5),
        ("stats.minecraft:custom.minecraft:sneak_time", 3)]
      = some [(["stats", "minecraft:custom", "minecraft:sneak_time"], 3)] := by
  refine ⟨?_, ?_, by decide⟩
  · intro e₁ e₂ rest
    simp [processStats, statSegs]
  · intro e₁ e₂ rest
    simp [processAdvancements, advSegs]

/-! ### C2 — failure handling of the remote loading loops -/

/-- C2 counterexample: when the first file of the listing fails, the second
player's file is never merged — `P2`'s column is absent from the result,
although loading `P2` alone would have produced it. -/
theorem c2_counterexample :
    (loadRemote [Except.error "connection lost",
        Except.ok ("P2", [("k", (1 : Int))])]).cell "k" "P2" = none ∧
    (loadRemote [Except.ok ("P2", [("k", (1 : Int))])]).cell "k" "P2" = some 1 :=
  ⟨by decide, by decide⟩

/-- Helper for C2: the loop body ignores everything after the first failing
file. -/
theorem loadRemoteGo_append_error {κ : Type} [DecidableEq κ] (e : String)
    (rest : List (Except String (String × List (κ × Int)))) :
    ∀ (pre : List (Except String (String × List (κ × Int)))) (df : DF κ),
      (∀ f ∈ pre, isOkFile f = true) →
      loadRemoteGo df (pre ++ Except.error e :: rest) = loadRemoteGo df pre := by
  intro pre
  induction pre with
  | nil => intro df _; rfl
  | cons f pre ih =>
    intro df h
    cases f with
    | error msg =>
      have := h (Except.error msg) (List.mem_cons_self _ _)
      simp [isOkFile] at this
    | ok p =>
      simp only [List.cons_append, loadRemoteGo]
      exact ih _ (fun g hg => h g (List.mem_cons_of_mem _ hg))

/-- C2 (amended): a transport or decode failure at one file of the listing is
caught outside the loop, so it aborts the processing of ALL remaining files;
the files before the failing one are kept and the partial table is returned
(the run itself continues). -/
theorem c2_failure_aborts_rest {κ : Type} [DecidableEq κ]
    (pre : List (Except String (String × List (κ × Int)))) (e : String)
    (rest : List (Except String (String × List (κ × Int))))
    (h : ∀ f ∈ pre, isOkFile f = true) :
    loadRemote (pre ++ Except.error e :: rest) = loadRemote pre :=
  loadRemoteGo_append_error e rest pre DF.empty h

/-- C2 witness: one successful file, then a failure, then another file — the
result is the table of the first file alone. -/
theorem c2_failure_aborts_rest_witness :
    (∀ f ∈ [Except.ok ("P1", [("k", (2 : Int))])], isOkFile f = true) ∧
    loadRemote ([Except.ok ("P1", [("k", (2 : Int))])] ++
        Except.error "boom" :: [Except.ok ("P2", [("k", (3 : Int))])])
      = loadRemote [Except.ok ("P1", [("k", (2 : Int))])] :=
  ⟨by decide, c2_failure_aborts_rest _ "boom" _ (by decide)⟩

end Cobbledex

namespace Cobbledex

/-! ### C8 — transport listings -/

/-- C8 counterexample: the FTP variant raises (`error_perm`) on an
inaccessible directory instead of returning an empty collection, and a
successful FTP listing forwards a directory entry unfiltered. -/
theorem c8_counterexample :
    ftpListDirectory (none : Option (List DirEntry))
        = Except.error "550 No such directory" ∧
    ftpListDirectory (some [⟨"subdir", FKind.dir⟩]) = Except.ok ["subdir"] :=
  ⟨rfl, rfl⟩

/-- C8 (amended): only the SFTP variant has the claimed behaviour — an
inaccessible directory yields `[]` rather than raising, and a successful
listing contains exactly the names of the regular files; the FTP variant
forwards the raw `NLST` listing, raising on an inaccessible directory and
applying no file-type filter. -/
theorem c8_sftp_only (es : List DirEntry) (n : String) :
    sftpListDirectory none = [] ∧
    (n ∈ sftpListDirectory (some es) ↔ ∃ e ∈ es, e.kind = FKind.reg ∧ e.name = n) ∧
    ftpListDirectory (some es) = Except.ok (es.map DirEntry.name) := by
  refine ⟨rfl, ?_, rfl⟩
  simp only [sftpListDirectory, List.mem_map, List.mem_filter, beq_iff_eq]
  constructor
  · rintro ⟨e, ⟨he, hk⟩, hn⟩
    exact ⟨e, he, hk, hn⟩
  · rintro ⟨e, he, hk, hn⟩
    exact ⟨e, ⟨he, hk⟩, hn⟩

/-- C8 witness: a listing with one regular file and one directory — the SFTP
variant keeps exactly the regular file's name. -/
theorem c8_sftp_only_witness :
    sftpListDirectory none = [] ∧
    ("f" ∈ sftpListDirectory (some [⟨"f", FKind.reg⟩, ⟨"d", FKind.dir⟩]) ↔
      ∃ e ∈ ([⟨"f", FKind.reg⟩, ⟨"d", FKind.dir⟩] : List DirEntry),
        e.kind = FKind.reg ∧ e.name = "f") ∧
    ftpListDirectory (some [⟨"f", FKind.reg⟩, ⟨"d", FKind.dir⟩])
      = Except.ok (([⟨"f", FKind.reg⟩, ⟨"d", FKind.dir⟩] : List DirEntry).map DirEntry.name) :=
  c8_sftp_only [⟨"f", FKind.reg⟩, ⟨"d", FKind.dir⟩] "f"

/-! ### C6 — the recipes filter of the advancements decoder -/

/-- C6: whenever the advancements decoder succeeds, its output contains no
entry whose id's local part (the substring after the first colon of the
level-0 index value) starts with `"recipes"`, and every post-drop entry whose
local part does not start with `"recipes"` is kept. -/
theorem c6_recipes_filtered {β : Type} (entries : List (String × β))
    (r : List (List String × β)) (h : processAdvancements entries = some r) :
    (∀ e ∈ r, ∀ loc, localPart (e.1.headD "") = some loc →
        pyStartsWith loc "recipes" = false) ∧
    (∀ e ∈ entries.drop 1, ∀ loc,
        localPart ((pySplitAll '.' e.1).headD "") = some loc →
        pyStartsWith loc "recipes" = false → (pySplitAll '.' e.1, e.2) ∈ r) := by
  unfold processAdvancements at h
  by_cases hemp : (advSegs entries).isEmpty
  · rw [if_pos hemp] at h
    cases h
  rw [if_neg hemp] at h
  by_cases hall : (advSegs entries).all (fun e => (advMask e.1).isSome)
  · rw [if_pos hall] at h
    cases h
    constructor
    · intro e he loc hloc
      have hmem := List.mem_filter.mp he
      have hmask : advMask e.1 = some (pyStartsWith loc "recipes") := by
        unfold advMask
        rw [hloc]
        rfl
      have := hmem.2
      rw [hmask] at this
      simp only [Option.getD_some, Bool.not_eq_true'] at this
      exact this
    · intro e he loc hloc hrec
      apply List.mem_filter.mpr
      constructor
      · unfold advSegs
        exact List.mem_map.mpr ⟨e, he, rfl⟩
      · have hmask : advMask (pySplitAll '.' e.1) = some (pyStartsWith loc "recipes") := by
          unfold advMask
          rw [hloc]
          rfl
        rw [hmask, hrec]
        rfl
  · rw [if_neg hall] at h
    cases h

/-- C6 witness: the spec scenario — `mod:recipes/iron_pickaxe` is dropped
while `mod:story/root` is kept. -/
theorem c6_recipes_filtered_witness :
    processAdvancements
        [("hdr", (0 : Int)), ("mod:recipes/iron_pickaxe.done", 1), ("mod:story/root.done", 1)]
      = some [(["mod:story/root", "done"], 1)] ∧
    (["mod:story/root", "done"], (1 : Int)) ∈ [(["mod:story/root", "done"], (1 : Int))] := by
  refine ⟨by decide, ?_⟩
  have h := (c6_recipes_filtered
      [("hdr", (0 : Int)), ("mod:recipes/iron_pickaxe.done", 1), ("mod:story/root.done", 1)]
      [(["mod:story/root", "done"], 1)] (by decide)).2
      ("mod:story/root.done", (1 : Int)) (by decide) "story/root" (by decide) (by decide)
  have he : pySplitAll '.' "mod:story/root.done" = ["mod:story/root", "done"] := by decide
  rw [he] at h
  exact h

/-! ### C3 — raw scores versus play-time formatting -/

/-- C3 counterexample: for `minecraft:custom` / `minecraft:play_time` the
ranking engine itself converts the tick count into an hours/minutes string —
72000 ticks come back as `"1h 0min"`, not as a raw number. -/
theorem c3_counterexample :
    vanillaLeaderboard playtimeTable "minecraft:custom" "minecraft:play_time"
      = some [("A", Score.fmt "1h 0min")] ∧
    Score.isRaw (Score.fmt "1h 0min") = false :=
  ⟨by decide, rfl⟩

/-- C3 (amended): for every category/subcategory pair other than
`minecraft:custom` / `minecraft:play_time` the leaderboard holds raw numeric
scores, but for that one pair every score is replaced by its formatted
hours/minutes string inside the ranking engine. -/
theorem c3_playtime_formatted :
    (∀ (df : DF Key3) (cat sub : String) (lb : List (String × Score)),
        ¬(cat = "minecraft:custom" ∧ sub = "minecraft:play_time") →
        vanillaLeaderboard df cat sub = some lb →
        ∀ e ∈ lb, Score.isRaw e.2 = true) ∧
    (∀ (df : DF Key3) (lb : List (String × Score)),
        vanillaLeaderboard df "minecraft:custom" "minecraft:play_time" = some lb →
        ∀ e ∈ lb, Score.isRaw e.2 = false) := by
  constructor
  · intro df cat sub lb hns hlb e he
    unfold vanillaLeaderboard at hlb
    cases hs : selectScores df cat sub with
    | none => rw [hs] at hlb; cases hlb
    | some r =>
      rw [hs] at hlb
      simp only [Option.map_some', Option.some_inj] at hlb
      rw [if_neg hns] at hlb
      subst hlb
      obtain ⟨x, _, hx⟩ := List.mem_map.mp he
      rw [← hx]
      rfl
  · intro df lb hlb e he
    unfold vanillaLeaderboard at hlb
    cases hs : selectScores df "minecraft:custom" "minecraft:play_time" with
    | none => rw [hs] at hlb; cases hlb
    | some r =>
      rw [hs] at hlb
      simp only [Option.map_some', Option.some_inj] at hlb
      simp only [and_self, if_true] at hlb
      subst hlb
      obtain ⟨x, _, hx⟩ := List.mem_map.mp he
      rw [← hx]
      rfl

/-- C3 witness: a non-play-time leaderboard holds a raw score. -/
theorem c3_playtime_formatted_witness :
    ¬(("c" : String) = "minecraft:custom" ∧ ("s" : String) = "minecraft:play_time") ∧
    vanillaLeaderboard ⟨[("stats", "c", "s")], [("A", [(("stats", "c", "s"), 7)])]⟩ "c" "s"
      = some [("A", Score.raw 7)] ∧
    Score.isRaw (Score.raw 7) = true :=
  ⟨by decide, by decide,
   c3_playtime_formatted.1 ⟨[("stats", "c", "s")], [("A", [(("stats", "c", "s"), 7)])]⟩
     "c" "s" [("A", Score.raw 7)] (by decide) (by decide) ("A", Score.raw 7) (by decide)⟩

end Cobbledex

namespace Cobbledex

/-! ### C4 — dotted-key collision summation -/

/-- Helper: `find?` with an equality predicate on a list returns the probed
element exactly when it is a member. -/
theorem find?_eq_mem_self {α : Type} [DecidableEq α] (L : List α) (a : α) :
    L.find? (fun k => decide (k = a)) = if a ∈ L then some a else none := by
  induction L with
  | nil => simp
  | cons b L ih =>
    by_cases hba : b = a
    · subst hba
      simp [List.find?]
    · rw [List.find?]
      have : (decide (b = a)) = false := by simp [hba]
      rw [this, ih]
      by_cases ha : a ∈ L
      · rw [if_pos ha, if_pos (List.mem_cons_of_mem _ ha)]
      · rw [if_neg ha, if_neg (by simp [ha, Ne.symm, hba])]

/-- C4 counterexample: when the colliding leaves are the very first entries of
the flattened record, the unconditional `iloc[1:]` drop removes the first one,
so `a.b.c.d = 1` and `a.b.c.e = 2` decode to `(a,b,c) = 2`, not `1 + 2`. -/
theorem c4_counterexample :
    processStats [("a.b.c.d", 1), ("a.b.c.e", 2)] = some [(["a", "b", "c"], 2)] ∧
    (2 : Int) ≠ 1 + 2 :=
  ⟨by decide, by decide⟩

/-- C4 (amended): after the unconditional discard of the first flattened
entry, whenever some remaining key has more than 3 segments (the only case in
which grouping runs, and one in which the decoder always succeeds), the
decoded record's value at a 3-segment key is the sum of every remaining leaf
whose key's first three segments are that key (leaves with fewer than 3
segments are dropped), and every decoded key has at most 3 segments. -/
theorem c4_collision_sum (entries : List (String × Int)) (k3 : List String)
    (hk : k3.length = 3) (hmax : 3 < maxSegs (statSegs entries))
    (r : List (List String × Int)) (hr : processStats entries = some r) :
    alookup r k3 =
      (if ((statSegs entries).filter
            (fun e => decide (3 ≤ e.1.length ∧ e.1.take 3 = k3))).isEmpty then none
       else some ((((statSegs entries).filter
            (fun e => decide (3 ≤ e.1.length ∧ e.1.take 3 = k3))).map (fun e => e.2)).sum)) ∧
    (∀ e ∈ r, e.1.length ≤ 3) := by
  have h0 : ¬ (statSegs entries).isEmpty = true := by
    intro hemp
    rw [List.isEmpty_iff] at hemp
    rw [hemp] at hmax
    simp [maxSegs] at hmax
  have h1 : ¬ maxSegs (statSegs entries) = 1 := by omega
  simp only [processStats] at hr
  rw [if_neg h0, if_neg h1, if_pos hmax] at hr
  have hps : r = groupSum (statSegs entries) := (Option.some_inj.mp hr).symm
  subst hps
  constructor
  · unfold alookup groupSum
    rw [List.find?_map _ _]
    have hpred : ((fun e : List String × Int => decide (e.1 = k3)) ∘
        (fun k => (k, ((( statSegs entries).filter
          (fun e => decide (3 ≤ e.1.length ∧ e.1.take 3 = k))).map (fun e => e.2)).sum)))
        = fun k => decide (k = k3) := rfl
    rw [hpred, find?_eq_mem_self]
    by_cases hmem : k3 ∈ groupKeys (statSegs entries)
    · rw [if_pos hmem]
      have hne : ¬ ((statSegs entries).filter
          (fun e => decide (3 ≤ e.1.length ∧ e.1.take 3 = k3))).isEmpty = true := by
        intro hemp
        rw [List.isEmpty_iff] at hemp
        unfold groupKeys at hmem
        rw [List.mem_dedup] at hmem
        obtain ⟨e, he, hek⟩ := List.mem_map.mp hmem
        have hel := List.mem_filter.mp he
        have : e ∈ (statSegs entries).filter
            (fun e => decide (3 ≤ e.1.length ∧ e.1.take 3 = k3)) := by
          apply List.mem_filter.mpr
          refine ⟨hel.1, ?_⟩
          simp only [decide_eq_true_eq] at hel ⊢
          exact ⟨hel.2, hek⟩
        rw [hemp] at this
        cases this
      rw [if_neg hne]
      rfl
    · rw [if_neg hmem]
      have hemp : ((statSegs entries).filter
          (fun e => decide (3 ≤ e.1.length ∧ e.1.take 3 = k3))).isEmpty = true := by
        rw [List.isEmpty_iff, List.filter_eq_nil_iff]
        intro e he hcond
        simp only [decide_eq_true_eq] at hcond
        apply hmem
        unfold groupKeys
        rw [List.mem_dedup]
        apply List.mem_map.mpr
        refine ⟨e, ?_, hcond.2⟩
        apply List.mem_filter.mpr
        exact ⟨he, by simp [hcond.1]⟩
      rw [if_pos hemp]
      rfl
  · intro e he
    unfold groupSum at he
    obtain ⟨k, hkmem, hke⟩ := List.mem_map.mp he
    unfold groupKeys at hkmem
    rw [List.mem_dedup] at hkmem
    obtain ⟨e', _, hek⟩ := List.mem_map.mp hkmem
    rw [← hke]
    simp only [← hek, List.length_take]
    exact min_le_left _ _

/-- C4 witness: `hdr` is dropped, then `a.b.c.d = 1` and `a.b.c.e = 2` sum
into the single key `(a, b, c) = 3`. -/
theorem c4_collision_sum_witness :
    (["a", "b", "c"] : List String).length = 3 ∧
    3 < maxSegs (statSegs [("hdr", 0), ("a.b.c.d", 1), ("a.b.c.e", 2)]) ∧
    processStats [("hdr", 0), ("a.b.c.d", 1), ("a.b.c.e", 2)]
      = some [(["a", "b", "c"], 3)] ∧
    alookup [(["a", "b", "c"], (3 : Int))] ["a", "b", "c"]
      = (if ((statSegs [("hdr", 0), ("a.b.c.d", 1), ("a.b.c.e", 2)]).filter
            (fun e => decide (3 ≤ e.1.length ∧ e.1.take 3 = ["a", "b", "c"]))).isEmpty
         then none
         else some ((((statSegs [("hdr", 0), ("a.b.c.d", 1), ("a.b.c.e", 2)]).filter
            (fun e => decide (3 ≤ e.1.length ∧
              e.1.take 3 = ["a", "b", "c"]))).map (fun e => e.2)).sum)) :=
  ⟨by decide, by decide, by decide,
   (c4_collision_sum [("hdr", 0), ("a.b.c.d", 1), ("a.b.c.e", 2)] ["a", "b", "c"]
     (by decide) (by decide) [(["a", "b", "c"], 3)] (by decide)).1⟩

end Cobbledex

namespace Cobbledex

/-! ### C1 — ordering of the leaderboard -/

/-- Helper: inserting into a run permutes to consing. -/
theorem insertAsc_perm (x : String × Int) (l : List (String × Int)) :
    List.Perm (insertAsc x l) (x :: l) := by
  induction l with
  | nil => exact List.Perm.refl _
  | cons y ys ih =>
    unfold insertAsc
    by_cases h : x.2 < y.2
    · rw [if_pos h]
    · rw [if_neg h]
      exact (ih.cons y).trans (List.Perm.swap x y ys)

/-- Helper: the sorting fold permutes to appending. -/
theorem sortValuesAsc_go_perm :
    ∀ (l acc : List (String × Int)),
      List.Perm (List.foldl (fun acc x => insertAsc x acc) acc l) (acc ++ l) := by
  intro l
  induction l with
  | nil => intro acc; simp
  | cons x l ih =>
    intro acc
    refine (ih (insertAsc x acc)).trans ?_
    exact (((insertAsc_perm x acc).append_right l).trans List.perm_middle.symm)

/-- Helper: `sort_values()` output is a permutation of its input. -/
theorem sortValuesAsc_perm (l : List (String × Int)) :
    List.Perm (sortValuesAsc l) l := by
  simpa using sortValuesAsc_go_perm l []

/-- Helper: insertion preserves ascending sortedness. -/
theorem insertAsc_sorted (x : String × Int) {l : List (String × Int)}
    (h : List.Sorted (fun a b : String × Int => a.2 ≤ b.2) l) :
    List.Sorted (fun a b : String × Int => a.2 ≤ b.2) (insertAsc x l) := by
  induction l with
  | nil => exact List.sorted_singleton x
  | cons y ys ih =>
    rw [List.sorted_cons] at h
    obtain ⟨hy, hys⟩ := h
    unfold insertAsc
    by_cases hlt : x.2 < y.2
    · rw [if_pos hlt, List.sorted_cons]
      refine ⟨?_, List.sorted_cons.mpr ⟨hy, hys⟩⟩
      intro b hb
      rcases List.mem_cons.mp hb with hb | hb
      · rw [hb]; exact le_of_lt hlt
      · exact le_of_lt (lt_of_lt_of_le hlt (hy b hb))
    · rw [if_neg hlt, List.sorted_cons]
      refine ⟨?_, ih hys⟩
      intro b hb
      rcases List.mem_cons.mp ((insertAsc_perm x ys).mem_iff.mp hb) with hb | hb
      · rw [hb]; exact le_of_not_lt hlt
      · exact hy b hb

/-- Helper: the sorting fold keeps the accumulator sorted. -/
theorem sortValuesAsc_go_sorted :
    ∀ (l acc : List (String × Int)),
      List.Sorted (fun a b : String × Int => a.2 ≤ b.2) acc →
      List.Sorted (fun a b : String × Int => a.2 ≤ b.2)
        (List.foldl (fun acc x => insertAsc x acc) acc l) := by
  intro l
  induction l with
  | nil => intro acc h; exact h
  | cons x l ih => intro acc h; exact ih _ (insertAsc_sorted x h)

/-- Helper: `sort_values()` sorts ascending by score. -/
theorem sortValuesAsc_sorted (l : List (String × Int)) :
    List.Sorted (fun a b : String × Int => a.2 ≤ b.2) (sortValuesAsc l) :=
  sortValuesAsc_go_sorted l [] List.sorted_nil

/-- C1 counterexample: with two tied scores (numpy's sort is its stable
insertion sort on inputs this small, so the model's output is the program's)
and original column order Alice before Bob, the leaderboard lists Bob before
Alice — the claimed stable original-order tie-breaking fails. -/
theorem c1_counterexample :
    tieTable.cols.map Prod.fst = ["Alice", "Bob"] ∧
    vanillaLeaderboard tieTable "c" "s"
      = some [("Bob", Score.raw 5), ("Alice", Score.raw 5)] :=
  ⟨by decide, by decide⟩

/-- C1 (amended): the leaderboard is sorted non-increasing by score and is a
permutation of the selected row, and the returned leaderboard carries the
ranked row's names in order; the relative order of players with EQUAL scores
is unspecified (pandas' default `kind='quicksort'` is documented unstable),
and in particular it is not the claimed original column order — on small
inputs, where numpy's sort is its insertion sort, ties come out in reversed
original order, as the counterexample shows. -/
theorem c1_sorted_desc_perm (df : DF Key3) (cat sub : String)
    (r : List (String × Int)) (h : selectScores df cat sub = some r) :
    (∀ lb, vanillaLeaderboard df cat sub = some lb →
        lb.map Prod.fst = (rankRow r).map Prod.fst) ∧
    List.Sorted (fun a b : String × Int => b.2 ≤ a.2) (rankRow r) ∧
    List.Perm (rankRow r) r := by
  refine ⟨?_, ?_, ?_⟩
  · intro lb hlb
    unfold vanillaLeaderboard at hlb
    rw [h] at hlb
    simp only [Option.map_some', Option.some_inj] at hlb
    subst hlb
    by_cases hc : cat = "minecraft:custom" ∧ sub = "minecraft:play_time"
    · rw [if_pos hc, List.map_map]
      rfl
    · rw [if_neg hc, List.map_map]
      rfl
  · unfold rankRow
    rw [List.Sorted, List.pairwise_reverse]
    exact sortValuesAsc_sorted r
  · exact (List.reverse_perm _).trans (sortValuesAsc_perm r)

/-- C1 witness: on the tied two-player table the amended facts hold — the
ranked row is sorted non-increasing and permutes the selected row. -/
theorem c1_sorted_desc_perm_witness :
    selectScores tieTable "c" "s" = some [("Alice", 5), ("Bob", 5)] ∧
    List.Sorted (fun a b : String × Int => b.2 ≤ a.2)
      (rankRow [("Alice", 5), ("Bob", 5)]) ∧
    List.Perm (rankRow [("Alice", 5), ("Bob", 5)])
      [("Alice", 5), ("Bob", 5)] :=
  ⟨by decide,
   (c1_sorted_desc_perm tieTable "c" "s" [("Alice", 5), ("Bob", 5)] (by decide)).2.1,
   (c1_sorted_desc_perm tieTable "c" "s" [("Alice", 5), ("Bob", 5)] (by decide)).2.2⟩

end Cobbledex

namespace Cobbledex

/-! ### C5 — order (in)dependence of the merge -/

/-- Helper: one merge step never empties a non-empty row index. -/
theorem mergeStep_rows_ne {κ : Type} [DecidableEq κ] (df : DF κ)
    (p : String × List (κ × Int)) (h : df.rows ≠ []) : (mergeStep df p).rows ≠ [] := by
  unfold mergeStep
  rw [if_neg (by simpa [List.isEmpty_iff] using h)]
  unfold DF.join
  simp [h]

/-- Helper: once the accumulator has rows, folding appends the incoming
columns in order. -/
theorem foldl_mergeStep_cols {κ : Type} [DecidableEq κ] :
    ∀ (l : List (String × List (κ × Int))) (df : DF κ), df.rows ≠ [] →
      (List.foldl mergeStep df l).cols = df.cols ++ l := by
  intro l
  induction l with
  | nil => intro df _; simp
  | cons p l ih =>
    intro df h
    rw [List.foldl_cons, ih (mergeStep df p) (mergeStep_rows_ne df p h)]
    unfold mergeStep
    rw [if_neg (by simpa [List.isEmpty_iff] using h)]
    unfold DF.join toDF
    simp

/-- Helper: once the accumulator has rows, the folded row index is the union
of the accumulator's rows and the incoming records' keys. -/
theorem foldl_mergeStep_rows {κ : Type} [DecidableEq κ] :
    ∀ (l : List (String × List (κ × Int))) (df : DF κ) (k : κ), df.rows ≠ [] →
      (k ∈ (List.foldl mergeStep df l).rows ↔
        k ∈ df.rows ∨ ∃ p ∈ l, k ∈ p.2.map Prod.fst) := by
  intro l
  induction l with
  | nil => intro df k _; simp
  | cons p l ih =>
    intro df k h
    rw [List.foldl_cons, ih _ k (mergeStep_rows_ne df p h)]
    have hstep : k ∈ (mergeStep df p).rows ↔ (k ∈ df.rows ∨ k ∈ p.2.map Prod.fst) := by
      unfold mergeStep
      rw [if_neg (by simpa [List.isEmpty_iff] using h)]
      unfold DF.join toDF
      simp only [List.mem_append, List.mem_filter, decide_eq_true_eq]
      by_cases hk : k ∈ df.rows
      · simp [hk]
      · simp [hk]
    rw [hstep]
    constructor
    · rintro ((hA | hB) | ⟨q, hq, hkq⟩)
      · exact Or.inl hA
      · exact Or.inr ⟨p, List.mem_cons_self _ _, hB⟩
      · exact Or.inr ⟨q, List.mem_cons_of_mem _ hq, hkq⟩
    · rintro (hA | ⟨q, hq, hkq⟩)
      · exact Or.inl (Or.inl hA)
      · rcases List.mem_cons.mp hq with rfl | hq
        · exact Or.inl (Or.inr hkq)
        · exact Or.inr ⟨q, hq, hkq⟩

/-- Helper: when every record is non-empty, the merged table's columns are
exactly the records, in merge order. -/
theorem mergeAll_cols {κ : Type} [DecidableEq κ] (l : List (String × List (κ × Int)))
    (h : ∀ p ∈ l, p.2 ≠ []) : (mergeAll l).cols = l := by
  cases l with
  | nil => rfl
  | cons p l =>
    unfold mergeAll
    rw [List.foldl_cons]
    have h1 : mergeStep DF.empty p = toDF p := rfl
    have h2 : (toDF p).rows ≠ [] := by
      unfold toDF
      simp only [ne_eq, List.map_eq_nil_iff]
      exact h p (List.mem_cons_self _ _)
    rw [h1, foldl_mergeStep_cols l (toDF p) h2]
    rfl

/-- Helper: when every record is non-empty, a key is a row of the merged
table exactly when some record holds it. -/
theorem mergeAll_rows {κ : Type} [DecidableEq κ] (l : List (String × List (κ × Int)))
    (h : ∀ p ∈ l, p.2 ≠ []) (k : κ) :
    k ∈ (mergeAll l).rows ↔ ∃ p ∈ l, k ∈ p.2.map Prod.fst := by
  cases l with
  | nil => simp [mergeAll, DF.empty]
  | cons p l =>
    unfold mergeAll
    rw [List.foldl_cons]
    have h1 : mergeStep DF.empty p = toDF p := rfl
    have h2 : (toDF p).rows ≠ [] := by
      unfold toDF
      simp only [ne_eq, List.map_eq_nil_iff]
      exact h p (List.mem_cons_self _ _)
    rw [h1, foldl_mergeStep_rows l (toDF p) k h2]
    constructor
    · rintro (hk | ⟨q, hq, hkq⟩)
      · exact ⟨p, List.mem_cons_self _ _, hk⟩
      · exact ⟨q, List.mem_cons_of_mem _ hq, hkq⟩
    · rintro ⟨q, hq, hkq⟩
      rcases List.mem_cons.mp hq with rfl | hq
      · exact Or.inl hkq
      · exact Or.inr ⟨q, hq, hkq⟩

/-- Helper: `find?` by name is permutation-invariant on lists with distinct
names. -/
theorem find?_name_perm {R : Type} {l₁ l₂ : List (String × R)} (hp : List.Perm l₁ l₂)
    (hn : (l₁.map Prod.fst).Nodup) (n : String) :
    l₁.find? (fun c => c.1 == n) = l₂.find? (fun c => c.1 == n) := by
  cases hf : l₁.find? (fun c => c.1 == n) with
  | none =>
    symm
    rw [List.find?_eq_none] at hf ⊢
    intro x hx
    exact hf x (hp.mem_iff.mpr hx)
  | some c =>
    have hc₁ : c ∈ l₁ := List.mem_of_find?_eq_some hf
    have hcp := List.find?_some hf
    cases hf₂ : l₂.find? (fun c => c.1 == n) with
    | none =>
      rw [List.find?_eq_none] at hf₂
      exact absurd hcp (hf₂ c (hp.mem_iff.mp hc₁))
    | some c₂ =>
      have hc₂ : c₂ ∈ l₁ := hp.mem_iff.mpr (List.mem_of_find?_eq_some hf₂)
      have hcp₂ := List.find?_some hf₂
      have hcc : c = c₂ := by
        apply List.inj_on_of_nodup_map hn hc₁ hc₂
        rw [beq_iff_eq] at hcp hcp₂
        rw [hcp, hcp₂]
      rw [hcc]

/-- Helper: the general permutation-invariance of the merge fold over
non-empty records with distinct names.  (The `df.empty` replacement makes a
record with no rows order-sensitive, but the stats decoder can never produce
one — see `processStats_ne_nil` — so this hypothesis is discharged for every
collection of decoded stats records.) -/
theorem mergeAll_perm_invariant {κ : Type} [DecidableEq κ]
    (l₁ l₂ : List (String × List (κ × Int))) (hp : List.Perm l₁ l₂)
    (hn : (l₁.map Prod.fst).Nodup) (hne : ∀ p ∈ l₁, p.2 ≠ []) :
    (∀ (k : κ) (n : String), (mergeAll l₁).cell k n = (mergeAll l₂).cell k n) ∧
    (∀ k : κ, k ∈ (mergeAll l₁).rows ↔ k ∈ (mergeAll l₂).rows) := by
  have hne₂ : ∀ p ∈ l₂, p.2 ≠ [] := fun p hq => hne p (hp.mem_iff.mpr hq)
  have hrows : ∀ k : κ, k ∈ (mergeAll l₁).rows ↔ k ∈ (mergeAll l₂).rows := by
    intro k
    rw [mergeAll_rows l₁ hne k, mergeAll_rows l₂ hne₂ k]
    constructor
    · rintro ⟨p, hq, hkq⟩
      exact ⟨p, hp.mem_iff.mp hq, hkq⟩
    · rintro ⟨p, hq, hkq⟩
      exact ⟨p, hp.mem_iff.mpr hq, hkq⟩
  refine ⟨?_, hrows⟩
  intro k n
  unfold DF.cell
  rw [mergeAll_cols l₁ hne, mergeAll_cols l₂ hne₂, find?_name_perm hp hn n]
  cases hfind : l₂.find? (fun c => c.1 == n) with
  | none => rfl
  | some c =>
    show (if k ∈ (mergeAll l₁).rows then some ((alookup c.2 k).getD 0) else none)
      = (if k ∈ (mergeAll l₂).rows then some ((alookup c.2 k).getD 0) else none)
    by_cases hk : k ∈ (mergeAll l₁).rows
    · rw [if_pos hk, if_pos ((hrows k).mp hk)]
    · rw [if_neg hk, if_neg (fun hk2 => hk ((hrows k).mpr hk2))]

/-- Helper: bounding a `foldl max` from below exhibits a large element (or a
large seed). -/
theorem foldl_max_gt :
    ∀ (l : List (List String × Int)) (a : Nat),
      3 < List.foldl (fun m e => max m e.1.length) a l →
      3 < a ∨ ∃ e ∈ l, 3 < e.1.length := by
  intro l
  induction l with
  | nil => intro a h; exact Or.inl h
  | cons e l ih =>
    intro a h
    rcases ih (max a e.1.length) h with h1 | ⟨e1, he1, hl1⟩
    · rcases lt_max_iff.mp h1 with h2 | h2
      · exact Or.inl h2
      · exact Or.inr ⟨e, List.mem_cons_self _ _, h2⟩
    · exact Or.inr ⟨e1, List.mem_cons_of_mem _ he1, hl1⟩

/-- Helper for C5: the stats decoder never returns an empty record — the two
empty-looking paths (no post-drop rows, or all keys dotless) raise instead of
decoding, and a successful grouping always has at least one group. -/
theorem processStats_ne_nil (entries : List (String × Int))
    (r : List (List String × Int)) (h : processStats entries = some r) :
    r ≠ [] := by
  simp only [processStats] at h
  by_cases h0 : (statSegs entries).isEmpty
  · rw [if_pos h0] at h
    cases h
  · rw [if_neg h0] at h
    by_cases h1 : maxSegs (statSegs entries) = 1
    · rw [if_pos h1] at h
      cases h
    · rw [if_neg h1] at h
      by_cases h3 : 3 < maxSegs (statSegs entries)
      · rw [if_pos h3] at h
        have hr : r = groupSum (statSegs entries) := (Option.some_inj.mp h).symm
        subst hr
        unfold groupSum
        simp only [ne_eq, List.map_eq_nil_iff]
        unfold maxSegs at h3
        rcases foldl_max_gt (statSegs entries) 0 h3 with h4 | ⟨e, he, hlen⟩
        · exact absurd h4 (by decide)
        · intro hcontra
          unfold groupKeys at hcontra
          rw [List.dedup_eq_nil, List.map_eq_nil_iff, List.filter_eq_nil_iff] at hcontra
          exact hcontra e he (by simp; omega)
      · rw [if_neg h3] at h
        have hr : r = statSegs entries := (Option.some_inj.mp h).symm
        subst hr
        simpa [List.isEmpty_iff] using h0

/-- C5: the stats merge is order-independent on decoded records — for every
collection of per-player records that are successful outputs of the stats
decoder (with distinct player names, as the outer join requires: a duplicate
column name makes `df.join` raise), merging them in any permutation yields
the same row-key set and the same filled cell value for every (row, player)
pair. -/
theorem c5_stats_merge_perm_invariant
    (l₁ l₂ : List (String × List (List String × Int)))
    (hp : List.Perm l₁ l₂) (hn : (l₁.map Prod.fst).Nodup)
    (hdec : ∀ p ∈ l₁, ∃ entries, processStats entries = some p.2) :
    (∀ (k : List String) (n : String),
        (mergeAll l₁).cell k n = (mergeAll l₂).cell k n) ∧
    (∀ k : List String, k ∈ (mergeAll l₁).rows ↔ k ∈ (mergeAll l₂).rows) := by
  apply mergeAll_perm_invariant l₁ l₂ hp hn
  intro p hmem
  obtain ⟨entries, hent⟩ := hdec p hmem
  exact processStats_ne_nil entries p.2 hent

/-- C5 witness: two decoded single-row records (each the output of the stats
decoder on a concrete file) merged in both orders agree on the cell of player
`A` at the decoded row key. -/
theorem c5_stats_merge_perm_invariant_witness :
    List.Perm
      [("A", [(["stats", "c", "m"], (1 : Int))]), ("B", [(["stats", "c", "m"], 2)])]
      [("B", [(["stats", "c", "m"], (2 : Int))]), ("A", [(["stats", "c", "m"], 1)])] ∧
    (([("A", [(["stats", "c", "m"], (1 : Int))]),
       ("B", [(["stats", "c", "m"], 2)])].map Prod.fst).Nodup) ∧
    (∀ p ∈ [("A", [(["stats", "c", "m"], (1 : Int))]), ("B", [(["stats", "c", "m"], 2)])],
        ∃ entries, processStats entries = some p.2) ∧
    (mergeAll [("A", [(["stats", "c", "m"], (1 : Int))]),
        ("B", [(["stats", "c", "m"], 2)])]).cell ["stats", "c", "m"] "A"
      = (mergeAll [("B", [(["stats", "c", "m"], (2 : Int))]),
          ("A", [(["stats", "c", "m"], 1)])]).cell ["stats", "c", "m"] "A" := by
  have hdec : ∀ p ∈ [("A", [(["stats", "c", "m"], (1 : Int))]),
      ("B", [(["stats", "c", "m"], 2)])],
      ∃ entries, processStats entries = some p.2 := by
    intro p hmem
    rcases List.mem_cons.mp hmem with rfl | hmem
    · exact ⟨[("hdr", 0), ("stats.c.m", 1)], by decide⟩
    · rcases List.mem_cons.mp hmem with rfl | hmem
      · exact ⟨[("hdr", 0), ("stats.c.m", 2)], by decide⟩
      · cases hmem
  exact ⟨List.Perm.swap _ _ _, by decide, hdec,
    (c5_stats_merge_perm_invariant _ _ (List.Perm.swap _ _ _) (by decide) hdec).1
      ["stats", "c", "m"] "A"⟩

end Cobbledex
